import Mathlib

/-!
Shallow embedding of the F1 race-results backend core (src/data/fetcher.py):
the paged fetcher, the standings retrieval loops, and the two derivation
folds (points progression and pilot stats), together with theorems about
their behaviour.
-/

namespace F1

/-! ## Data model

JSON objects are modelled field-by-field: a field that may be absent in the
upstream JSON is an `Option`.  The Python code reads them with `.get` and a
default, which is mirrored by `Option.getD`. -/

/-- The nested `Driver` object of a result row (`givenName` / `familyName`). -/
structure DriverNames where
  givenName : Option String
  familyName : Option String
deriving DecidableEq

/-- The raw `points` field of a result row.  Upstream it is a JSON value that
Python passes to `float(...)`: a numeric value parses, a non-numeric string
raises `ValueError`. -/
inductive PointsField where
  | numeric (q : ℚ)
  | nonNumeric (s : String)
deriving DecidableEq

/-- One result row, with exactly the fields the code reads:
`Driver`, `position`, `positionText`, `status`, `points`. -/
structure ResultRow where
  driver : Option DriverNames
  position : Option String
  positionText : Option String
  status : Option String
  points : Option PointsField
deriving DecidableEq

/-- One race object: `round`, `raceName` and the embedded `Results` array. -/
structure Race where
  round : Option String
  raceName : Option String
  results : Option (List ResultRow)
deriving DecidableEq

/-! ## Association lists

Python `dict`s (insertion ordered) are modelled as association lists:
`alookup` is `d[k]` / `d.get(k)`, `aupdate` is `d[k] = v` (updates the
existing entry in place, or appends a fresh key at the end). -/

/-- Lookup in an insertion-ordered map. -/
def alookup {β : Type _} : List (String × β) → String → Option β
  | [], _ => none
  | (k, v) :: t, key => if k = key then some v else alookup t key

/-- Assignment `d[key] = v` on an insertion-ordered map. -/
def aupdate {β : Type _} : List (String × β) → String → β → List (String × β)
  | [], key, v => [(key, v)]
  | (k, w) :: t, key, v =>
      if k = key then (k, v) :: t else (k, w) :: aupdate t key v

theorem alookup_aupdate_self {β : Type _} (m : List (String × β)) (k : String) (v : β) :
    alookup (aupdate m k v) k = some v := by
  induction m with
  | nil => simp [aupdate, alookup]
  | cons hd t ih =>
    obtain ⟨k', w⟩ := hd
    by_cases h : k' = k
    · simp [aupdate, alookup, h]
    · simp [aupdate, alookup, h, ih]

theorem alookup_aupdate_ne {β : Type _} (m : List (String × β)) (k d : String) (v : β)
    (h : d ≠ k) : alookup (aupdate m k v) d = alookup m d := by
  induction m with
  | nil => simp [aupdate, alookup, Ne.symm h]
  | cons hd t ih =>
    obtain ⟨k', w⟩ := hd
    by_cases h' : k' = k
    · subst h'
      simp [aupdate, alookup, Ne.symm h]
    · simp [aupdate, if_neg h', alookup, ih]

theorem mem_aupdate {β : Type _} (m : List (String × β)) (k : String) (v : β) :
    ∀ e ∈ aupdate m k v, e ∈ m ∨ e = (k, v) := by
  induction m with
  | nil =>
    intro e he
    simp [aupdate] at he
    right; exact he
  | cons hd t ih =>
    obtain ⟨k', w⟩ := hd
    intro e he
    by_cases h : k' = k
    · subst h
      simp only [aupdate, if_pos rfl, if_true] at he
      rw [List.mem_cons] at he
      rcases he with rfl | he
      · right; rfl
      · left; exact List.mem_cons_of_mem _ he
    · simp only [aupdate, if_neg h] at he
      rw [List.mem_cons] at he
      rcases he with rfl | he
      · left; exact List.mem_cons_self _ _
      · rcases ih e he with h2 | h2
        · left; exact List.mem_cons_of_mem _ h2
        · right; exact h2

/-- When the key is fresh, `aupdate` appends the new binding at the end. -/
theorem aupdate_fresh {β : Type _} (m : List (String × β)) (k : String) (v : β)
    (h : alookup m k = none) : aupdate m k v = m ++ [(k, v)] := by
  induction m with
  | nil => simp [aupdate]
  | cons hd t ih =>
    obtain ⟨k', w⟩ := hd
    by_cases h' : k' = k
    · simp [alookup, h'] at h
    · simp only [alookup, if_neg h'] at h
      simp [aupdate, h', ih h]

/-! ## Paged fetcher (`get_all_season_results`)

The upstream API is modelled as a function from the request `offset` to
either a fetch error (HTTP failure or malformed JSON — in Python, the
exception raised by `resp.raise_for_status()` / `resp.json()`) or a page.
A page is the decoded JSON envelope with the fields the code reads:
`MRData.RaceTable.Races` (an `Option`, absent when the nesting path is
missing — Python's chained `.get(..., {})`/`.get(..., [])` then yields `[]`)
and `MRData.total`. -/

/-- One decoded page of the `results.json` endpoint, as read by the code. -/
structure ResultsPage (α : Type _) where
  races : Option (List α)
  total : Nat
deriving DecidableEq

/-- The `while True` pagination loop of `get_all_season_results`, with an
explicit fuel argument for termination and an explicit count of GET requests
issued.  Mirrors fetcher.py lines 134-155: break on an empty (or missing)
chunk, otherwise extend, advance `offset` by `limit` and break once
`offset >= total`. -/
def fetchPages {α : Type _} [DecidableEq α] (upstream : Nat → Except String (ResultsPage α))
    (limit : Nat) : Nat → Nat → List α → Nat → Except String (List α × Nat)
  | 0, _, _, _ => .error "out of fuel"
  | fuel + 1, offset, acc, reqs =>
    match upstream offset with
    | .error e => .error e
    | .ok page =>
      let chunk := page.races.getD []
      if chunk = [] then .ok (acc, reqs + 1)
      else
        let acc2 := acc ++ chunk
        if page.total ≤ offset + limit then .ok (acc2, reqs + 1)
        else fetchPages upstream limit fuel (offset + limit) acc2 (reqs + 1)

/-- Model of `get_all_season_results`: run the pagination loop from offset 0 with the
hard-coded page size `limit = 100`. -/
def getAllSeasonResults {α : Type _} [DecidableEq α] (upstream : Nat → Except String (ResultsPage α))
    (fuel : Nat) : Except String (List α × Nat) :=
  fetchPages upstream 100 fuel 0 [] 0

/-- A well-behaved synthetic paged source serving the list `items` in pages
of size `pageSize`, declaring the true total. -/
def syntheticUpstream {α : Type _} (items : List α) (pageSize : Nat) :
    Nat → Except String (ResultsPage α) :=
  fun offset => .ok ⟨some ((items.drop offset).take pageSize), items.length⟩

/-- Ceiling division `ceil(n / p)` on naturals. -/
def pageCount (n p : Nat) : Nat := (n + p - 1) / p

theorem pageCount_pos {n p : Nat} (hp : 1 ≤ p) (hn : 1 ≤ n) : 1 ≤ pageCount n p := by
  unfold pageCount
  rw [Nat.one_le_div_iff hp]
  omega

theorem pageCount_eq_one {n p : Nat} (hp : 1 ≤ p) (hn : 1 ≤ n) (hnp : n ≤ p) :
    pageCount n p = 1 := by
  unfold pageCount
  have h1 : n + p - 1 = (n - 1) + p := by omega
  rw [h1, Nat.add_div_right _ hp, Nat.div_eq_of_lt (by omega)]

theorem pageCount_succ {n p : Nat} (hp : 1 ≤ p) (hnp : p < n) :
    pageCount n p = pageCount (n - p) p + 1 := by
  unfold pageCount
  have h1 : n + p - 1 = ((n - p) + p - 1) + p := by omega
  rw [h1, Nat.add_div_right _ hp]

/-- Core pagination invariant: from any reached offset strictly inside the
synthetic collection, the loop returns the remaining items appended to the
accumulator, using one request per remaining page. -/
theorem fetchPages_syntheticUpstream {α : Type _} [DecidableEq α] (items : List α) (P : Nat) (hP : 1 ≤ P) :
    ∀ fuel offset acc reqs, offset < items.length →
      pageCount (items.length - offset) P ≤ fuel →
      fetchPages (syntheticUpstream items P) P fuel offset acc reqs =
        .ok (acc ++ items.drop offset, reqs + pageCount (items.length - offset) P) := by
  intro fuel
  induction fuel with
  | zero =>
    intro offset acc reqs hoff hfuel
    exact absurd hfuel (by
      have := pageCount_pos hP (n := items.length - offset) (by omega)
      omega)
  | succ fuel ih =>
    intro offset acc reqs hoff hfuel
    have hchunk : (items.drop offset).take P ≠ [] := by
      intro hnil
      have hlen : ((items.drop offset).take P).length = 0 := by rw [hnil]; rfl
      rw [List.length_take, List.length_drop] at hlen
      omega
    by_cases hlast : items.length ≤ offset + P
    · have hone : pageCount (items.length - offset) P = 1 :=
        pageCount_eq_one hP (by omega) (by omega)
      have htake : (items.drop offset).take P = items.drop offset :=
        List.take_of_length_le (by rw [List.length_drop]; omega)
      have hdropne : items.drop offset ≠ [] := by
        intro h0
        have hl := congrArg List.length h0
        rw [List.length_drop] at hl
        simp at hl
        omega
      simp only [fetchPages, syntheticUpstream, Option.getD_some, if_neg hchunk,
        if_pos hlast, hone, htake]
      rw [if_neg hdropne]
    · have hrec : pageCount (items.length - offset) P =
          pageCount (items.length - (offset + P)) P + 1 := by
        have h2 := pageCount_succ hP (n := items.length - offset) (p := P) (by omega)
        have h3 : items.length - offset - P = items.length - (offset + P) := by omega
        rw [h2, h3]
      have hfuel2 : pageCount (items.length - (offset + P)) P ≤ fuel := by omega
      have hih := ih (offset + P) (acc ++ (items.drop offset).take P) (reqs + 1)
        (by omega) hfuel2
      have hdd : (items.drop offset).drop P = items.drop (offset + P) := by
        simp [List.drop_drop, Nat.add_comm]
      have hlist : (acc ++ (items.drop offset).take P) ++ items.drop (offset + P) =
          acc ++ items.drop offset := by
        rw [List.append_assoc, ← hdd, List.take_append_drop]
      have hnat : reqs + 1 + pageCount (items.length - (offset + P)) P =
          reqs + pageCount (items.length - offset) P := by omega
      simp only [fetchPages, syntheticUpstream, Option.getD_some, if_neg hchunk,
        if_neg hlast, hih, hlist, hnat]

/-- C1 (amended): for a synthetic paged source with N items and page size
P ≥ 1, the fetcher returns exactly the N items in order and issues
max(1, ceil(N/P)) GET requests: ceil(N/P) requests when N ≥ 1, and a single
request when N = 0. -/
theorem fetcher_pagination_count {α : Type _} [DecidableEq α] (items : List α)
    (P fuel : Nat) (hP : 1 ≤ P) (hfuel : max 1 (pageCount items.length P) ≤ fuel) :
    fetchPages (syntheticUpstream items P) P fuel 0 [] 0 =
      .ok (items, max 1 (pageCount items.length P)) := by
  by_cases h0 : items = []
  · subst h0
    obtain ⟨f, rfl⟩ : ∃ f, fuel = f + 1 := ⟨fuel - 1, by omega⟩
    have hpc : pageCount 0 P = 0 := by
      unfold pageCount
      exact Nat.div_eq_of_lt (by omega)
    simp [fetchPages, syntheticUpstream, hpc]
  · have hlen : 0 < items.length := List.length_pos.mpr h0
    have hpc1 : 1 ≤ pageCount items.length P := pageCount_pos hP hlen
    have h := fetchPages_syntheticUpstream items P hP fuel 0 [] 0 hlen
      (by rw [Nat.sub_zero]; omega)
    rw [h]
    simp [Nat.sub_zero, List.drop_zero, Nat.max_eq_right hpc1]

/-- Witness for `fetcher_pagination_count`: 3 items in pages of 2 are fetched
in full with ceil(3/2) = 2 requests. -/
theorem fetcher_pagination_count_witness :
    fetchPages (syntheticUpstream [1, 2, 3] 2) 2 5 0 [] 0 = .ok ([1, 2, 3], 2) :=
  fetcher_pagination_count [1, 2, 3] 2 5 (by decide) (by decide)

/-- C1 counterexample: for N = 0 the code issues one GET request, while the
claim demands ceil(0/P) = 0 requests. -/
theorem fetcher_pagination_zero_counterexample :
    getAllSeasonResults (syntheticUpstream ([] : List Nat) 100) 1 = .ok ([], 1) ∧
    pageCount 0 100 = 0 :=
  ⟨rfl, rfl⟩

/-- An upstream source whose first page (offset 0) holds `firstItems` with the
declared `total`, and whose every later page is `laterPage`. -/
def twoPageUpstream {α : Type _} (firstItems : List α) (total : Nat)
    (laterPage : Except String (ResultsPage α)) : Nat → Except String (ResultsPage α) :=
  fun offset => if offset = 0 then .ok ⟨some firstItems, total⟩ else laterPage

/-- C6 (amended): a non-success HTTP status or malformed JSON on any reached
page aborts the whole retrieval with that single error and no items; but a
page whose expected nesting path is missing ends the pagination silently,
returning the items accumulated from the earlier pages. -/
theorem fetcher_error_propagation {α : Type _} [DecidableEq α] (items : List α)
    (total : Nat) (e : String) (fuel : Nat)
    (hne : items ≠ []) (htot : 100 < total) (hfuel : 2 ≤ fuel) :
    getAllSeasonResults (fun _ => (Except.error e : Except String (ResultsPage α))) fuel =
        .error e ∧
    getAllSeasonResults (twoPageUpstream items total (.error e)) fuel = .error e ∧
    getAllSeasonResults (twoPageUpstream items total (.ok ⟨none, total⟩)) fuel =
        .ok (items, 2) := by
  obtain ⟨k, rfl⟩ : ∃ k, fuel = k + 2 := ⟨fuel - 2, by omega⟩
  have h1 : ¬ total ≤ 100 := by omega
  have h2 : (100 : Nat) ≠ 0 := by omega
  refine ⟨?_, ?_, ?_⟩
  · simp [getAllSeasonResults, fetchPages]
  · simp [getAllSeasonResults, fetchPages, twoPageUpstream, hne, h1, h2]
  · simp [getAllSeasonResults, fetchPages, twoPageUpstream, hne, h1, h2]

/-- Witness for `fetcher_error_propagation` at a concrete one-item first page. -/
theorem fetcher_error_propagation_witness :
    getAllSeasonResults (fun _ => (Except.error "boom" : Except String (ResultsPage Nat))) 2 =
        .error "boom" ∧
    getAllSeasonResults (twoPageUpstream [7] 150 (.error "boom")) 2 = .error "boom" ∧
    getAllSeasonResults (twoPageUpstream [7] 150 (.ok ⟨none, 150⟩)) 2 = .ok ([7], 2) :=
  fetcher_error_propagation [7] 150 "boom" 2 (by decide) (by decide) (by decide)

/-- A race object with every optional field absent. -/
def sampleRace : Race := ⟨none, none, none⟩

/-- C6 counterexample: the second page's expected nesting path is missing,
yet the retrieval does not surface a fetch error — it returns the first
page's 100 items (a partial list) as a success. -/
theorem fetcher_missing_path_counterexample :
    getAllSeasonResults (twoPageUpstream (List.replicate 100 sampleRace) 150
        (.ok ⟨none, 150⟩)) 2 = .ok (List.replicate 100 sampleRace, 2) := by
  rfl

/-! ## Standings retrieval (`get_driver_standings`, `get_constructor_standings`)

One decoded page of `driverStandings.json` / `constructorStandings.json`:
`MRData.StandingsTable.StandingsLists` (absent path ⇒ `none`), each list
object carrying its `DriverStandings` / `ConstructorStandings` array, and
`MRData.total`. -/

/-- One element of `StandingsLists`, holding the nested standings array
(`DriverStandings` or `ConstructorStandings`, depending on the endpoint). -/
structure StandingsListObj (α : Type _) where
  standings : Option (List α)
deriving DecidableEq

/-- One decoded page of a standings endpoint. -/
structure StandingsPage (α : Type _) where
  lists : Option (List (StandingsListObj α))
  total : Nat
deriving DecidableEq

/-- The pagination loop of `get_driver_standings` (fetcher.py lines 44-69):
break on an absent/empty `StandingsLists`, break on an absent/empty
`DriverStandings` in its first element, else extend and continue until
`offset >= total`. -/
def driverStandingsLoop {α : Type _} [DecidableEq α]
    (upstream : Nat → Except String (StandingsPage α)) :
    Nat → Nat → List α → Except String (List α)
  | 0, _, _ => .error "out of fuel"
  | fuel + 1, offset, acc =>
    match upstream offset with
    | .error e => .error e
    | .ok page =>
      match page.lists.getD [] with
      | [] => .ok acc
      | l0 :: _ =>
        let chunk := l0.standings.getD []
        if chunk = [] then .ok acc
        else
          let acc2 := acc ++ chunk
          if page.total ≤ offset + 100 then .ok acc2
          else driverStandingsLoop upstream fuel (offset + 100) acc2

/-- Model of `get_driver_standings`: run the loop from offset 0 with an empty
accumulator. -/
def getDriverStandings {α : Type _} [DecidableEq α]
    (upstream : Nat → Except String (StandingsPage α)) (fuel : Nat) :
    Except String (List α) :=
  driverStandingsLoop upstream fuel 0 []

/-- The pagination loop of `get_constructor_standings` (fetcher.py lines
89-114); identical in structure to `driverStandingsLoop`, reading the
`ConstructorStandings` array of the first standings list. -/
def constructorStandingsLoop {α : Type _} [DecidableEq α]
    (upstream : Nat → Except String (StandingsPage α)) :
    Nat → Nat → List α → Except String (List α)
  | 0, _, _ => .error "out of fuel"
  | fuel + 1, offset, acc =>
    match upstream offset with
    | .error e => .error e
    | .ok page =>
      match page.lists.getD [] with
      | [] => .ok acc
      | l0 :: _ =>
        let chunk := l0.standings.getD []
        if chunk = [] then .ok acc
        else
          let acc2 := acc ++ chunk
          if page.total ≤ offset + 100 then .ok acc2
          else constructorStandingsLoop upstream fuel (offset + 100) acc2

/-- Model of `get_constructor_standings`. -/
def getConstructorStandings {α : Type _} [DecidableEq α]
    (upstream : Nat → Except String (StandingsPage α)) (fuel : Nat) :
    Except String (List α) :=
  constructorStandingsLoop upstream fuel 0 []

/-- The first page's nested standings list is absent or empty: either
`StandingsLists` is missing/empty, or its first element's standings array is
missing/empty. -/
def emptyNestedStandings {α : Type _} (page : StandingsPage α) : Prop :=
  page.lists.getD [] = [] ∨
    ∃ l0 rest, page.lists.getD [] = l0 :: rest ∧ l0.standings.getD [] = []

/-- C9: if the nested standings list is absent or empty on the first page,
both standings operations return an empty list rather than an error. -/
theorem standings_empty_first_page {α : Type _} [DecidableEq α]
    (du cu : Nat → Except String (StandingsPage α)) (fuel : Nat) (hfuel : 1 ≤ fuel)
    (dp cp : StandingsPage α) (hd : du 0 = .ok dp) (hc : cu 0 = .ok cp)
    (hde : emptyNestedStandings dp) (hce : emptyNestedStandings cp) :
    getDriverStandings du fuel = .ok [] ∧ getConstructorStandings cu fuel = .ok [] := by
  obtain ⟨k, rfl⟩ : ∃ k, fuel = k + 1 := ⟨fuel - 1, by omega⟩
  constructor
  · rcases hde with h | ⟨l0, rest, h, h0⟩
    · simp [getDriverStandings, driverStandingsLoop, hd, h]
    · simp [getDriverStandings, driverStandingsLoop, hd, h, h0]
  · rcases hce with h | ⟨l0, rest, h, h0⟩
    · simp [getConstructorStandings, constructorStandingsLoop, hc, h]
    · simp [getConstructorStandings, constructorStandingsLoop, hc, h, h0]

/-- Witness for `standings_empty_first_page`: one source with an empty
`StandingsLists`, one whose first list has an empty standings array. -/
theorem standings_empty_first_page_witness :
    getDriverStandings (fun _ => .ok (⟨some [], 0⟩ : StandingsPage Nat)) 1 = .ok [] ∧
    getConstructorStandings (fun _ => .ok (⟨some [⟨none⟩], 9⟩ : StandingsPage Nat)) 1 =
      .ok [] :=
  standings_empty_first_page (fun _ => .ok ⟨some [], 0⟩)
    (fun _ => .ok ⟨some [⟨none⟩], 9⟩) 1 (by decide) ⟨some [], 0⟩ ⟨some [⟨none⟩], 9⟩
    rfl rfl (Or.inl rfl) (Or.inr ⟨⟨none⟩, [], rfl, rfl⟩)

/-! ## Derivation engine: common row handling -/

/-- Python's `str.strip()`: drop leading and trailing whitespace. -/
def pyStrip (s : String) : String :=
  ⟨((s.data.dropWhile Char.isWhitespace).reverse.dropWhile Char.isWhitespace).reverse⟩

/-- The driver display key of a result row:
`f"{driver.get('givenName','')} {driver.get('familyName','')}".strip()`. -/
def rowKey (res : ResultRow) : String :=
  let dd := res.driver.getD ⟨none, none⟩
  pyStrip ((dd.givenName.getD "") ++ " " ++ (dd.familyName.getD ""))

/-- Model of `float(res.get("points", 0))`: a missing field defaults to 0, a numeric
value parses, a present non-numeric value raises `ValueError`. -/
def parsePoints : Option PointsField → Except String ℚ
  | none => .ok 0
  | some (.numeric q) => .ok q
  | some (.nonNumeric s) => .error ("could not convert string to float: " ++ s)

/-- The numeric points a row contributes when parsing succeeds (0 when the
field is missing); irrelevant fallback 0 on the error branch. -/
def rowPoints (res : ResultRow) : ℚ :=
  match parsePoints res.points with
  | .ok q => q
  | .error _ => 0

/-- Model of `race.get("Results", [])`. -/
def raceRows (race : Race) : List ResultRow :=
  race.results.getD []

/-- Sum of the points of the rows of a given driver in a row list. -/
def rowsPointsFor (d : String) : List ResultRow → ℚ
  | [] => 0
  | r :: t => (if rowKey r = d then rowPoints r else 0) + rowsPointsFor d t

/-- Whether a driver key labels some row of a row list. -/
def rowsAppears (d : String) : List ResultRow → Bool
  | [] => false
  | r :: t => (rowKey r == d) || rowsAppears d t

/-- Sum of a driver's points over one race. -/
def racePointsFor (d : String) (race : Race) : ℚ :=
  rowsPointsFor d (raceRows race)

/-- Whether a driver appears in a race's result rows. -/
def appearsIn (d : String) (race : Race) : Bool :=
  rowsAppears d (raceRows race)

/-- Sum of a driver's points over the first `n` races. -/
def sumUpTo (d : String) (races : List Race) (n : Nat) : ℚ :=
  ((races.take n).map (racePointsFor d)).sum

theorem rowsPointsFor_of_not_appears {d : String} {rows : List ResultRow}
    (h : rowsAppears d rows = false) : rowsPointsFor d rows = 0 := by
  induction rows with
  | nil => rfl
  | cons r t ih =>
    simp only [rowsAppears, Bool.or_eq_false_iff, beq_eq_false_iff_ne, ne_eq] at h
    simp [rowsPointsFor, h.1, ih h.2]

/-! ## `get_points_progression` (fetcher.py lines 157-203) -/

/-- The race label `f"{round_number} - {race.get('raceName', 'Unknown')}"`
(Python renders a missing `round` as the string `"None"`). -/
def raceLabel (race : Race) : String :=
  (match race.round with
   | none => "None"
   | some s => s) ++ " - " ++ race.raceName.getD "Unknown"

/-- The inner `for res in results` loop of `get_points_progression`:
threads the running-totals dict `cum` and the per-race entry dict, skipping
rows with an empty display key, and failing on a non-numeric points value. -/
def processRows : List ResultRow → List (String × ℚ) → List (String × ℚ) →
    Except String (List (String × ℚ) × List (String × ℚ))
  | [], cum, entry => .ok (cum, entry)
  | res :: rest, cum, entry =>
    let d := rowKey res
    if d = "" then processRows rest cum entry
    else
      match parsePoints res.points with
      | .error e => .error e
      | .ok pts =>
        let newTotal := (alookup cum d).getD 0 + pts
        processRows rest (aupdate cum d newTotal) (aupdate entry d newTotal)

/-- The outer `for race in races` loop of `get_points_progression`. -/
def progLoop : List Race → List (String × ℚ) → List (String × List (String × ℚ)) →
    Except String (List (String × List (String × ℚ)))
  | [], _, prog => .ok prog
  | race :: rest, cum, prog =>
    match processRows (raceRows race) cum [] with
    | .error e => .error e
    | .ok (cum2, entry) => progLoop rest cum2 (aupdate prog (raceLabel race) entry)

/-- Model of `get_points_progression`, as a function of the aggregated race list. -/
def getPointsProgression (races : List Race) :
    Except String (List (String × List (String × ℚ))) :=
  progLoop races [] []

theorem rowPoints_eq_of_ok {res : ResultRow} {q : ℚ}
    (h : parsePoints res.points = .ok q) : rowPoints res = q := by
  unfold rowPoints
  rw [h]

theorem rowsAppears_cons_ne {d : String} {res : ResultRow} {rest : List ResultRow}
    (h : rowKey res ≠ d) : rowsAppears d (res :: rest) = rowsAppears d rest := by
  simp only [rowsAppears, beq_eq_false_iff_ne.mpr h, Bool.false_or]

theorem rowsPointsFor_cons_ne {d : String} {res : ResultRow} {rest : List ResultRow}
    (h : rowKey res ≠ d) : rowsPointsFor d (res :: rest) = rowsPointsFor d rest := by
  simp [rowsPointsFor, h]

theorem rowsAppears_cons_self {d : String} {res : ResultRow} {rest : List ResultRow}
    (h : rowKey res = d) : rowsAppears d (res :: rest) = true := by
  simp [rowsAppears, h]

theorem rowsPointsFor_cons_self {d : String} {res : ResultRow} {rest : List ResultRow}
    (h : rowKey res = d) :
    rowsPointsFor d (res :: rest) = rowPoints res + rowsPointsFor d rest := by
  simp [rowsPointsFor, h]

/-- Characterization of the inner row loop of `get_points_progression`: when
no non-empty-key row has a non-numeric points value, it succeeds; the
running-totals dict of each appearing driver gains that driver's points sum,
the per-race entry records exactly the appearing drivers' final running
totals, and the empty key is never touched. -/
theorem processRows_ok (rows : List ResultRow) :
    (∀ r ∈ rows, rowKey r = "" ∨ ∃ q, parsePoints r.points = .ok q) →
    ∀ cum entry, ∃ cum2 entry2,
      processRows rows cum entry = .ok (cum2, entry2) ∧
      (∀ d, d ≠ "" →
        alookup cum2 d = if rowsAppears d rows then
          some ((alookup cum d).getD 0 + rowsPointsFor d rows) else alookup cum d) ∧
      (∀ d, d ≠ "" →
        alookup entry2 d = if rowsAppears d rows then alookup cum2 d
          else alookup entry d) ∧
      alookup cum2 "" = alookup cum "" ∧ alookup entry2 "" = alookup entry "" := by
  induction rows with
  | nil =>
    intro _ cum entry
    exact ⟨cum, entry, rfl, by simp [rowsAppears], by simp [rowsAppears], rfl, rfl⟩
  | cons res rest ih =>
    intro hok cum entry
    have hok_rest : ∀ r ∈ rest, rowKey r = "" ∨ ∃ q, parsePoints r.points = .ok q :=
      fun r hr => hok r (List.mem_cons_of_mem _ hr)
    by_cases hkey : rowKey res = ""
    · obtain ⟨cum2, entry2, heq, hcum, hentry, hc0, he0⟩ := ih hok_rest cum entry
      refine ⟨cum2, entry2, ?_, ?_, ?_, hc0, he0⟩
      · simpa [processRows, hkey] using heq
      · intro d hd
        have hne : rowKey res ≠ d := by rw [hkey]; exact Ne.symm hd
        rw [rowsAppears_cons_ne hne, rowsPointsFor_cons_ne hne]
        exact hcum d hd
      · intro d hd
        have hne : rowKey res ≠ d := by rw [hkey]; exact Ne.symm hd
        rw [rowsAppears_cons_ne hne]
        exact hentry d hd
    · obtain ⟨q, hq⟩ : ∃ q, parsePoints res.points = .ok q :=
        (hok res (List.mem_cons_self _ _)).resolve_left hkey
      obtain ⟨cum2, entry2, heq, hcum, hentry, hc0, he0⟩ :=
        ih hok_rest (aupdate cum (rowKey res) ((alookup cum (rowKey res)).getD 0 + q))
          (aupdate entry (rowKey res) ((alookup cum (rowKey res)).getD 0 + q))
      refine ⟨cum2, entry2, ?_, ?_, ?_, ?_, ?_⟩
      · simpa [processRows, hkey, hq] using heq
      · intro d hd
        by_cases hdk : rowKey res = d
        · subst hdk
          have h1 := hcum (rowKey res) hd
          rw [rowsAppears_cons_self rfl, rowsPointsFor_cons_self rfl,
            rowPoints_eq_of_ok hq, if_pos rfl]
          cases ha : rowsAppears (rowKey res) rest with
          | true =>
            simp only [ha, if_true, alookup_aupdate_self, Option.getD_some] at h1
            rw [h1, add_assoc]
          | false =>
            simp [ha, alookup_aupdate_self] at h1
            rw [h1, rowsPointsFor_of_not_appears ha, add_zero]
        · have h1 := hcum d hd
          rw [alookup_aupdate_ne _ _ _ _ (fun h => hdk h.symm)] at h1
          rw [rowsAppears_cons_ne hdk, rowsPointsFor_cons_ne hdk]
          exact h1
      · intro d hd
        by_cases hdk : rowKey res = d
        · subst hdk
          have h2 := hentry (rowKey res) hd
          rw [rowsAppears_cons_self rfl, if_pos rfl]
          cases ha : rowsAppears (rowKey res) rest with
          | true =>
            simpa [ha] using h2
          | false =>
            have h1 := hcum (rowKey res) hd
            simp [ha, alookup_aupdate_self] at h1 h2
            rw [h1, h2]
        · have h2 := hentry d hd
          rw [alookup_aupdate_ne _ _ _ _ (fun h => hdk h.symm)] at h2
          rw [rowsAppears_cons_ne hdk]
          exact h2
      · rw [hc0]
        exact alookup_aupdate_ne _ _ _ _ (fun h => hkey h.symm)
      · rw [he0]
        exact alookup_aupdate_ne _ _ _ _ (fun h => hkey h.symm)

theorem alookup_append_of_none {β : Type _} (m1 m2 : List (String × β)) (k : String)
    (h : alookup m1 k = none) : alookup (m1 ++ m2) k = alookup m2 k := by
  induction m1 with
  | nil => simp
  | cons hd t ih =>
    obtain ⟨k', v⟩ := hd
    by_cases h' : k' = k
    · simp [alookup, h'] at h
    · simp only [alookup, if_neg h'] at h
      simp [alookup, h', ih h]

/-- Characterization of the race loop of `get_points_progression`: with
parseable points, pairwise distinct race labels and a label-fresh output
dict, the loop appends one entry per race, in race order; race `i`'s entry
records, per appearing driver, the base total plus the driver's points summed
over races `0..i`, and records nothing for anyone else. -/
theorem progLoop_ok (races : List Race) :
    (∀ race ∈ races, ∀ r ∈ raceRows race,
        rowKey r = "" ∨ ∃ q, parsePoints r.points = .ok q) →
    (races.map raceLabel).Nodup →
    ∀ cum prog, (∀ race ∈ races, alookup prog (raceLabel race) = none) →
    ∃ L, progLoop races cum prog = .ok (prog ++ L) ∧
      L.length = races.length ∧
      (∀ i race, races[i]? = some race →
        ∃ entry, L[i]? = some (raceLabel race, entry) ∧
          (∀ d, d ≠ "" → alookup entry d =
            if appearsIn d race then
              some ((alookup cum d).getD 0 + sumUpTo d races (i + 1)) else none) ∧
          alookup entry "" = none) := by
  induction races with
  | nil =>
    intro _ _ cum prog _
    exact ⟨[], by simp [progLoop], rfl, by intro i race hi; simp at hi⟩
  | cons race0 rest ih =>
    intro hok hnd cum prog hfresh
    have hok0 : ∀ r ∈ raceRows race0, rowKey r = "" ∨ ∃ q, parsePoints r.points = .ok q :=
      hok race0 (List.mem_cons_self _ _)
    have hok_rest : ∀ race ∈ rest, ∀ r ∈ raceRows race,
        rowKey r = "" ∨ ∃ q, parsePoints r.points = .ok q :=
      fun race hr => hok race (List.mem_cons_of_mem _ hr)
    rw [List.map_cons, List.nodup_cons] at hnd
    obtain ⟨hnotmem, hnd_rest⟩ := hnd
    obtain ⟨cum1, entry0, heq0, hcum0, hentry0, hc00, he00⟩ :=
      processRows_ok (raceRows race0) hok0 cum []
    have hfr0 : alookup prog (raceLabel race0) = none :=
      hfresh race0 (List.mem_cons_self _ _)
    have hupd : aupdate prog (raceLabel race0) entry0 =
        prog ++ [(raceLabel race0, entry0)] := aupdate_fresh _ _ _ hfr0
    have hfresh_rest : ∀ race ∈ rest,
        alookup (prog ++ [(raceLabel race0, entry0)]) (raceLabel race) = none := by
      intro race hr
      have h1 : alookup prog (raceLabel race) = none :=
        hfresh race (List.mem_cons_of_mem _ hr)
      have h2 : raceLabel race0 ≠ raceLabel race := by
        intro h
        exact hnotmem (h ▸ List.mem_map_of_mem raceLabel hr)
      rw [alookup_append_of_none _ _ _ h1]
      simp [alookup, h2]
    obtain ⟨L', hL'eq, hL'len, hL'spec⟩ :=
      ih hok_rest hnd_rest cum1 (prog ++ [(raceLabel race0, entry0)]) hfresh_rest
    refine ⟨(raceLabel race0, entry0) :: L', ?_, by simp [hL'len], ?_⟩
    · have : progLoop (race0 :: rest) cum prog =
          progLoop rest cum1 (aupdate prog (raceLabel race0) entry0) := by
        simp [progLoop, heq0]
      rw [this, hupd, hL'eq, List.append_assoc, List.singleton_append]
    · intro i race hi
      cases i with
      | zero =>
        rw [List.getElem?_cons_zero] at hi
        injection hi with hi
        subst hi
        refine ⟨entry0, by rw [List.getElem?_cons_zero], ?_, he00⟩
        intro d hd
        have he := hentry0 d hd
        have hc := hcum0 d hd
        rw [he]
        cases ha : rowsAppears d (raceRows race0) with
        | true =>
          simp only [ha, if_true] at hc
          rw [hc]
          simp [appearsIn, racePointsFor, ha, sumUpTo, List.take_succ_cons]
        | false =>
          simp only [ha, Bool.false_eq_true, if_false] at hc
          simp [appearsIn, ha, alookup]
      | succ i =>
        rw [List.getElem?_cons_succ] at hi
        obtain ⟨entry, hLi, hspec, h0⟩ := hL'spec i race hi
        refine ⟨entry, by rw [List.getElem?_cons_succ]; exact hLi, ?_, h0⟩
        intro d hd
        have hc := hcum0 d hd
        have hstep : (alookup cum1 d).getD 0 =
            (alookup cum d).getD 0 + racePointsFor d race0 := by
          cases ha : rowsAppears d (raceRows race0) with
          | true =>
            simp only [ha, if_true] at hc
            rw [hc]
            simp [racePointsFor]
          | false =>
            simp only [ha, Bool.false_eq_true, if_false] at hc
            rw [hc]
            have : racePointsFor d race0 = 0 := rowsPointsFor_of_not_appears ha
            rw [this, add_zero]
        have hsum : sumUpTo d (race0 :: rest) (i + 1 + 1) =
            racePointsFor d race0 + sumUpTo d rest (i + 1) := by
          simp [sumUpTo, List.take_succ_cons]
        rw [hspec d hd, hstep, hsum, add_assoc]

theorem rowsPointsFor_nonneg (d : String) (rows : List ResultRow)
    (h : ∀ r ∈ rows, ∃ q, parsePoints r.points = .ok q ∧ 0 ≤ q) :
    0 ≤ rowsPointsFor d rows := by
  induction rows with
  | nil => exact le_refl 0
  | cons r t ih =>
    obtain ⟨q, hq, hq0⟩ := h r (List.mem_cons_self _ _)
    have ht := ih (fun r hr => h r (List.mem_cons_of_mem _ hr))
    have hr : (0 : ℚ) ≤ if rowKey r = d then rowPoints r else 0 := by
      split
      · rw [rowPoints_eq_of_ok hq]
        exact hq0
      · exact le_refl 0
    simp only [rowsPointsFor]
    exact add_nonneg hr ht

theorem sumUpTo_mono (d : String) (races : List Race) (m n : Nat) (hmn : m ≤ n)
    (h : ∀ race ∈ races, 0 ≤ racePointsFor d race) :
    sumUpTo d races m ≤ sumUpTo d races n := by
  unfold sumUpTo
  have htt : races.take m = (races.take n).take m := by
    rw [List.take_take, Nat.min_eq_left hmn]
  rw [htt]
  conv_rhs => rw [(List.take_append_drop m (races.take n)).symm]
  rw [List.map_append, List.sum_append]
  have h2 : 0 ≤ (((races.take n).drop m).map (racePointsFor d)).sum := by
    apply List.sum_nonneg
    intro x hx
    rw [List.mem_map] at hx
    obtain ⟨race, hrace, rfl⟩ := hx
    exact h race (List.take_subset n races (List.drop_subset m _ hrace))
  linarith

/-- C2: with non-negative parseable points and distinct race labels, the
points-progression succeeds, has one entry per race in race order; the total
recorded for a driver at race `i` equals the sum of that driver's points over
races `0..i`, and recorded totals for the same driver are monotone in the
race index. -/
theorem pointsProgression_cumulative (races : List Race)
    (hq : ∀ race ∈ races, ∀ r ∈ raceRows race,
        ∃ q, parsePoints r.points = Except.ok q ∧ 0 ≤ q)
    (hnd : (races.map raceLabel).Nodup) :
    ∃ prog, getPointsProgression races = .ok prog ∧
      prog.length = races.length ∧
      (∀ i race, races[i]? = some race →
        ∃ entry, prog[i]? = some (raceLabel race, entry) ∧
          ∀ d t, alookup entry d = some t → t = sumUpTo d races (i + 1)) ∧
      (∀ (i j : Nat) (ei ej : String × List (String × ℚ)) (d : String) (ti tj : ℚ),
        i ≤ j → prog[i]? = some ei → prog[j]? = some ej →
        alookup ei.2 d = some ti → alookup ej.2 d = some tj → ti ≤ tj) := by
  have hok : ∀ race ∈ races, ∀ r ∈ raceRows race,
      rowKey r = "" ∨ ∃ q, parsePoints r.points = .ok q := by
    intro race hr r hrr
    obtain ⟨q, hq1, _⟩ := hq race hr r hrr
    exact Or.inr ⟨q, hq1⟩
  obtain ⟨L, hLeq, hLlen, hLspec⟩ :=
    progLoop_ok races hok hnd [] [] (by intro race _; rfl)
  have hval : ∀ i e d t, L[i]? = some e → alookup e.2 d = some t →
      d ≠ "" ∧ t = sumUpTo d races (i + 1) := by
    intro i e d t hLi ht
    have hilen : i < L.length := by
      by_contra hcon
      push_neg at hcon
      rw [List.getElem?_eq_none hcon] at hLi
      cases hLi
    have hir : i < races.length := by rw [hLlen] at hilen; exact hilen
    obtain ⟨entry, hLi', hspec, h0⟩ :=
      hLspec i races[i] (List.getElem?_eq_getElem hir)
    rw [hLi] at hLi'
    injection hLi' with he
    subst he
    have hd : d ≠ "" := by
      intro hd
      subst hd
      rw [h0] at ht
      cases ht
    refine ⟨hd, ?_⟩
    have hs := hspec d hd
    simp only [alookup, Option.getD_none, zero_add] at hs
    rw [hs] at ht
    by_cases ha : appearsIn d races[i] = true
    · rw [if_pos ha] at ht
      exact (Option.some.inj ht).symm
    · rw [if_neg ha] at ht
      cases ht
  refine ⟨L, ?_, hLlen, ?_, ?_⟩
  · show progLoop races [] [] = .ok L
    rw [hLeq, List.nil_append]
  · intro i race hi
    obtain ⟨entry, hLi, _, _⟩ := hLspec i race hi
    exact ⟨entry, hLi, fun d t ht => (hval i (raceLabel race, entry) d t hLi ht).2⟩
  · intro i j ei ej d ti tj hij hpi hpj hti htj
    obtain ⟨hdne, hti'⟩ := hval i ei d ti hpi hti
    obtain ⟨_, htj'⟩ := hval j ej d tj hpj htj
    subst hti' htj'
    apply sumUpTo_mono d races (i + 1) (j + 1) (by omega)
    intro race hrace
    apply rowsPointsFor_nonneg
    intro r hr
    exact hq race hrace r hr

/-! ## `get_pilot_stats` (fetcher.py lines 206-265) -/

/-- One driver's counter record `{"wins": .., "podiums": .., "retirements": ..}`. -/
structure PilotRecord where
  wins : Nat
  podiums : Nat
  retirements : Nat
deriving DecidableEq

/-- The record a driver starts with on first sight (`stats.setdefault`). -/
def defaultRecord : PilotRecord := ⟨0, 0, 0⟩

/-- Evaluation of `int(cs)` on an all-digit character list. -/
def digitsToNat (cs : List Char) : Nat :=
  cs.foldl (fun n c => 10 * n + (c.toNat - 48)) 0

/-- Model of `pos = int(pos) if pos and str(pos).isdigit() else None`: the raw value
must be present, truthy (non-empty) and all digits to parse. -/
def parsePos : Option String → Option Nat
  | none => none
  | some s => if s.data ≠ [] ∧ s.data.all Char.isDigit then some (digitsToNat s.data) else none

/-- The status keywords of the retirement heuristic. -/
def retirementKeywords : List String :=
  ["Retired", "Accident", "DNF", "Collision", "Engine", "Gearbox"]

/-- Substring containment on character lists (Python's `needle in hay`). -/
def hasSub : List Char → List Char → Bool
  | [], needle => needle.isEmpty
  | c :: t, needle => needle.isPrefixOf (c :: t) || hasSub t needle

/-- Python's `needle in hay` on strings. -/
def strContainsSub (hay needle : String) : Bool :=
  hasSub hay.data needle.data

/-- The retirement test of lines 258-263: `positionText == "R"` or the status
contains one of the keywords as a case-sensitive substring. -/
def isRetirement (res : ResultRow) : Bool :=
  (res.positionText.getD "" == "R") ||
    retirementKeywords.any (fun kw => strContainsSub (res.status.getD "") kw)

/-- Update `if pos == 1: wins += 1`. -/
def winsAfter (cur : Nat) (pos : Option Nat) : Nat :=
  if pos = some 1 then cur + 1 else cur

/-- Update `if pos and pos <= 3: podiums += 1` — note the Python truthiness test on
the parsed integer, which excludes `0`. -/
def podiumsAfter (cur : Nat) (pos : Option Nat) : Nat :=
  match pos with
  | some n => if n ≠ 0 ∧ n ≤ 3 then cur + 1 else cur
  | none => cur

/-- The retirement counter update. -/
def retirementsAfter (cur : Nat) (res : ResultRow) : Nat :=
  if isRetirement res then cur + 1 else cur

/-- The body of the inner `for res in results` loop of `get_pilot_stats`:
skip empty display keys, `setdefault` the record, then apply the three
counter updates. -/
def procStatsRow (stats : List (String × PilotRecord)) (res : ResultRow) :
    List (String × PilotRecord) :=
  if rowKey res = "" then stats
  else
    let cur := (alookup stats (rowKey res)).getD defaultRecord
    aupdate stats (rowKey res)
      ⟨winsAfter cur.wins (parsePos res.position),
       podiumsAfter cur.podiums (parsePos res.position),
       retirementsAfter cur.retirements res⟩

/-- Model of `get_pilot_stats`, as a function of the aggregated race list. -/
def getPilotStats (races : List Race) : List (String × PilotRecord) :=
  races.foldl (fun st race => (raceRows race).foldl procStatsRow st) []

theorem winsAfter_eq (cur : Nat) (pos : Option Nat) :
    winsAfter cur pos = cur + (if pos = some 1 then 1 else 0) := by
  unfold winsAfter
  split
  · rfl
  · rw [Nat.add_zero]

theorem podiumsAfter_eq (cur : Nat) (pos : Option Nat) :
    podiumsAfter cur pos = cur +
      (match pos with
       | some n => if 1 ≤ n ∧ n ≤ 3 then 1 else 0
       | none => 0) := by
  cases pos with
  | none => rfl
  | some n =>
    show (if n ≠ 0 ∧ n ≤ 3 then cur + 1 else cur) =
      cur + (if 1 ≤ n ∧ n ≤ 3 then 1 else 0)
    by_cases h3 : n ≠ 0 ∧ n ≤ 3
    · rw [if_pos h3, if_pos (by omega)]
    · rw [if_neg h3, if_neg (by omega), Nat.add_zero]

/-- C3 (amended): rows with a non-empty key parse the position exactly when
it is present, non-empty and all digits; a parsed position 1 increments wins
by 1; a parsed position `n` with `1 ≤ n ≤ 3` increments podiums by 1 (the
Python truthiness test excludes a parsed 0); an unclassified row increments
neither. -/
theorem pilotStats_position_rules (stats : List (String × PilotRecord)) (res : ResultRow)
    (h : rowKey res ≠ "") :
    ∃ rec, alookup (procStatsRow stats res) (rowKey res) = some rec ∧
      rec.wins = ((alookup stats (rowKey res)).getD defaultRecord).wins +
        (if parsePos res.position = some 1 then 1 else 0) ∧
      rec.podiums = ((alookup stats (rowKey res)).getD defaultRecord).podiums +
        (match parsePos res.position with
         | some n => if 1 ≤ n ∧ n ≤ 3 then 1 else 0
         | none => 0) ∧
      ((parsePos res.position).isSome = true ↔
        ∃ s, res.position = some s ∧ s.data ≠ [] ∧ s.data.all Char.isDigit = true) ∧
      (parsePos res.position = none →
        rec.wins = ((alookup stats (rowKey res)).getD defaultRecord).wins ∧
        rec.podiums = ((alookup stats (rowKey res)).getD defaultRecord).podiums) := by
  have hbody : procStatsRow stats res =
      aupdate stats (rowKey res)
        ⟨winsAfter ((alookup stats (rowKey res)).getD defaultRecord).wins (parsePos res.position),
         podiumsAfter ((alookup stats (rowKey res)).getD defaultRecord).podiums
           (parsePos res.position),
         retirementsAfter ((alookup stats (rowKey res)).getD defaultRecord).retirements res⟩ := by
    simp [procStatsRow, h]
  rw [hbody]
  refine ⟨_, alookup_aupdate_self _ _ _, winsAfter_eq _ _, podiumsAfter_eq _ _, ?_, ?_⟩
  · cases hp : res.position with
    | none => simp [parsePos]
    | some s =>
      by_cases hc : s.data ≠ [] ∧ s.data.all Char.isDigit
      · simp only [parsePos, if_pos hc, Option.isSome_some, true_iff]
        exact ⟨s, rfl, hc.1, hc.2⟩
      · simp only [parsePos, if_neg hc, Option.isSome_none, Bool.false_eq_true, false_iff]
        rintro ⟨s', hs', h1, h2⟩
        injection hs' with hs'
        subst hs'
        exact hc ⟨h1, h2⟩
  · intro hnone
    constructor
    · rw [winsAfter_eq, hnone]
      simp
    · rw [podiumsAfter_eq, hnone]
      rfl

/-- Witness for `pilotStats_position_rules` at a winning row. -/
theorem pilotStats_position_rules_witness :
    ∃ rec, alookup (procStatsRow []
        ⟨some ⟨some "Bob", some "Win"⟩, some "1", none, none, none⟩) (rowKey
        ⟨some ⟨some "Bob", some "Win"⟩, some "1", none, none, none⟩) = some rec ∧
      rec.wins = ((alookup [] (rowKey
        ⟨some ⟨some "Bob", some "Win"⟩, some "1", none, none, none⟩)).getD defaultRecord).wins +
        (if parsePos (some "1") = some 1 then 1 else 0) ∧
      rec.podiums = ((alookup [] (rowKey
        ⟨some ⟨some "Bob", some "Win"⟩, some "1", none, none, none⟩)).getD defaultRecord).podiums +
        (match parsePos (some "1") with
         | some n => if 1 ≤ n ∧ n ≤ 3 then 1 else 0
         | none => 0) ∧
      ((parsePos (some "1")).isSome = true ↔
        ∃ s, (some "1" : Option String) = some s ∧ s.data ≠ [] ∧
          s.data.all Char.isDigit = true) ∧
      (parsePos (some "1") = none →
        rec.wins = ((alookup [] (rowKey
          ⟨some ⟨some "Bob", some "Win"⟩, some "1", none, none, none⟩)).getD defaultRecord).wins ∧
        rec.podiums = ((alookup [] (rowKey
          ⟨some ⟨some "Bob", some "Win"⟩, some "1", none, none,
            none⟩)).getD defaultRecord).podiums) :=
  pilotStats_position_rules []
    ⟨some ⟨some "Bob", some "Win"⟩, some "1", none, none, none⟩ (by decide)

/-- A row whose raw position is the digit string `"0"`. -/
def posZeroRow : ResultRow := ⟨some ⟨some "Alice", some "Zeta"⟩, some "0", none, none, none⟩

/-- A one-race season containing only `posZeroRow`. -/
def posZeroRace : Race := ⟨some "1", some "R1", some [posZeroRow]⟩

/-- C3 counterexample: position `"0"` is present and all digits, parses to
0 ≤ 3, yet the row increments no podium (nor win) because the code's
truthiness test `if pos and pos <= 3` is false at 0. -/
theorem pilotStats_position_zero_counterexample :
    parsePos (some "0") = some 0 ∧ (0 ≤ 3) ∧
    getPilotStats [posZeroRace] = [("Alice Zeta", ⟨0, 0, 0⟩)] := by
  refine ⟨rfl, by omega, ?_⟩
  rfl

theorem isRetirement_iff (res : ResultRow) :
    isRetirement res = true ↔
      (res.positionText.getD "" = "R" ∨
        ∃ kw ∈ retirementKeywords, strContainsSub (res.status.getD "") kw = true) := by
  simp [isRetirement, List.any_eq_true]

theorem retirementsAfter_eq (cur : Nat) (res : ResultRow) :
    retirementsAfter cur res = cur +
      (if res.positionText.getD "" = "R" ∨
          ∃ kw ∈ retirementKeywords, strContainsSub (res.status.getD "") kw = true
       then 1 else 0) := by
  unfold retirementsAfter
  by_cases hp : res.positionText.getD "" = "R" ∨
      ∃ kw ∈ retirementKeywords, strContainsSub (res.status.getD "") kw = true
  · rw [if_pos ((isRetirement_iff res).mpr hp), if_pos hp]
  · rw [if_neg (fun hb => hp ((isRetirement_iff res).mp hb)), if_neg hp, Nat.add_zero]

/-- C4: a row with a non-empty display key increments the driver's
retirements by exactly 1 iff its `positionText` is the literal `"R"` or its
status contains one of the retirement keywords as a case-sensitive
substring; otherwise the counter is unchanged.  The `positionText` rule is a
disjunct of its own, independent of the status. -/
theorem pilotStats_retirement_rule (stats : List (String × PilotRecord)) (res : ResultRow)
    (h : rowKey res ≠ "") :
    ∃ rec, alookup (procStatsRow stats res) (rowKey res) = some rec ∧
      rec.retirements = ((alookup stats (rowKey res)).getD defaultRecord).retirements +
        (if res.positionText.getD "" = "R" ∨
            ∃ kw ∈ retirementKeywords, strContainsSub (res.status.getD "") kw = true
         then 1 else 0) := by
  have hbody : procStatsRow stats res =
      aupdate stats (rowKey res)
        ⟨winsAfter ((alookup stats (rowKey res)).getD defaultRecord).wins (parsePos res.position),
         podiumsAfter ((alookup stats (rowKey res)).getD defaultRecord).podiums
           (parsePos res.position),
         retirementsAfter ((alookup stats (rowKey res)).getD defaultRecord).retirements res⟩ := by
    simp [procStatsRow, h]
  rw [hbody]
  exact ⟨_, alookup_aupdate_self _ _ _, retirementsAfter_eq _ _⟩

/-- Witness for `pilotStats_retirement_rule`: `positionText = "R"` with
`status = "Finished"` — the positionText rule fires on its own. -/
theorem pilotStats_retirement_rule_witness :
    ∃ rec, alookup (procStatsRow []
        ⟨some ⟨some "Ret", some "Guy"⟩, none, some "R", some "Finished", none⟩) (rowKey
        ⟨some ⟨some "Ret", some "Guy"⟩, none, some "R", some "Finished", none⟩) = some rec ∧
      rec.retirements = ((alookup [] (rowKey
        ⟨some ⟨some "Ret", some "Guy"⟩, none, some "R", some "Finished",
          none⟩)).getD defaultRecord).retirements +
        (if (some "R" : Option String).getD "" = "R" ∨
            ∃ kw ∈ retirementKeywords,
              strContainsSub ((some "Finished" : Option String).getD "") kw = true
         then 1 else 0) :=
  pilotStats_retirement_rule []
    ⟨some ⟨some "Ret", some "Guy"⟩, none, some "R", some "Finished", none⟩ (by decide)

/-! ## Invariant: wins never exceed podiums -/

/-- Every recorded pilot record has `wins ≤ podiums`. -/
def StatsInv (stats : List (String × PilotRecord)) : Prop :=
  ∀ d rec, alookup stats d = some rec → rec.wins ≤ rec.podiums

theorem winsAfter_le_podiumsAfter {cw cp : Nat} (h : cw ≤ cp) (pos : Option Nat) :
    winsAfter cw pos ≤ podiumsAfter cp pos := by
  cases pos with
  | none =>
    show (if (none : Option Nat) = some 1 then cw + 1 else cw) ≤ cp
    rw [if_neg (by simp)]
    exact h
  | some n =>
    show (if some n = some 1 then cw + 1 else cw) ≤ (if n ≠ 0 ∧ n ≤ 3 then cp + 1 else cp)
    by_cases h1 : n = 1
    · subst h1
      rw [if_pos rfl, if_pos (by omega)]
      omega
    · rw [if_neg (fun hc => h1 (Option.some.inj hc))]
      split
      · omega
      · omega

theorem statsInv_procStatsRow (stats : List (String × PilotRecord)) (res : ResultRow)
    (h : StatsInv stats) : StatsInv (procStatsRow stats res) := by
  unfold procStatsRow
  by_cases hk : rowKey res = ""
  · rw [if_pos hk]
    exact h
  · rw [if_neg hk]
    intro d rec hlk
    by_cases hd : d = rowKey res
    · subst hd
      rw [alookup_aupdate_self] at hlk
      injection hlk with hlk
      subst hlk
      have hcur : ((alookup stats (rowKey res)).getD defaultRecord).wins ≤
          ((alookup stats (rowKey res)).getD defaultRecord).podiums := by
        cases hc : alookup stats (rowKey res) with
        | none => exact le_refl 0
        | some r => exact h (rowKey res) r hc
      exact winsAfter_le_podiumsAfter hcur (parsePos res.position)
    · rw [alookup_aupdate_ne _ _ _ _ hd] at hlk
      exact h d rec hlk

theorem statsInv_foldRows (rows : List ResultRow) :
    ∀ stats, StatsInv stats → StatsInv (rows.foldl procStatsRow stats) := by
  induction rows with
  | nil => intro stats h; exact h
  | cons r t ih =>
    intro stats h
    exact ih _ (statsInv_procStatsRow stats r h)

theorem statsInv_getPilotStats (races : List Race) : StatsInv (getPilotStats races) := by
  unfold getPilotStats
  have hgen : ∀ rs stats, StatsInv stats →
      StatsInv (List.foldl (fun st race => (raceRows race).foldl procStatsRow st) stats rs) := by
    intro rs
    induction rs with
    | nil => intro stats h; exact h
    | cons race t ih =>
      intro stats h
      exact ih _ (statsInv_foldRows (raceRows race) stats h)
  exact hgen races [] (by intro d rec h; cases h)

/-- C10: every driver record of `get_pilot_stats` satisfies
`wins ≤ podiums` (each counter is a natural number by construction). -/
theorem pilotStats_wins_le_podiums (races : List Race) (d : String) (rec : PilotRecord)
    (h : alookup (getPilotStats races) d = some rec) : rec.wins ≤ rec.podiums :=
  statsInv_getPilotStats races d rec h

/-- A winning row and its one-race season, used as concrete inputs. -/
def winRow : ResultRow := ⟨some ⟨some "Bob", some "Win"⟩, some "1", none, none, none⟩

/-- One-race season containing only `winRow`. -/
def winRace : Race := ⟨some "1", some "R1", some [winRow]⟩

/-- Witness for `pilotStats_wins_le_podiums` on a concrete season. -/
theorem pilotStats_wins_le_podiums_witness :
    (PilotRecord.mk 1 1 0).wins ≤ (PilotRecord.mk 1 1 0).podiums :=
  pilotStats_wins_le_podiums [winRace] "Bob Win" ⟨1, 1, 0⟩ (by decide)

/-! ## Driver display key: identical derivation and empty-key exclusion -/

theorem processRows_empty_key_lookup :
    ∀ (rows : List ResultRow) cum entry cum2 entry2,
      processRows rows cum entry = .ok (cum2, entry2) →
      alookup entry2 "" = alookup entry "" := by
  intro rows
  induction rows with
  | nil =>
    intro cum entry cum2 entry2 heq
    injection heq with heq
    rw [(Prod.mk.injEq _ _ _ _).mp heq |>.2]
  | cons res rest ih =>
    intro cum entry cum2 entry2 heq
    by_cases hk : rowKey res = ""
    · simp only [processRows, if_pos hk] at heq
      exact ih cum entry cum2 entry2 heq
    · simp only [processRows, if_neg hk] at heq
      cases hp : parsePoints res.points with
      | error e => rw [hp] at heq; cases heq
      | ok q =>
        rw [hp] at heq
        have := ih _ _ _ _ heq
        rw [this]
        exact alookup_aupdate_ne _ _ _ _ (fun hc => hk hc.symm)

theorem progLoop_empty_key_lookup :
    ∀ (races : List Race) cum prog out,
      progLoop races cum prog = .ok out →
      (∀ e ∈ prog, alookup e.2 "" = none) →
      ∀ e ∈ out, alookup e.2 "" = none := by
  intro races
  induction races with
  | nil =>
    intro cum prog out heq hprog
    injection heq with heq
    exact heq ▸ hprog
  | cons race0 rest ih =>
    intro cum prog out heq hprog
    simp only [progLoop] at heq
    cases hp : processRows (raceRows race0) cum [] with
    | error e => rw [hp] at heq; cases heq
    | ok pr =>
      obtain ⟨cum2, entry⟩ := pr
      rw [hp] at heq
      refine ih cum2 _ out heq ?_
      intro e he
      rcases mem_aupdate _ _ _ e he with h1 | h1
      · exact hprog e h1
      · rw [h1]
        show alookup entry "" = none
        exact processRows_empty_key_lookup _ _ _ _ _ hp

theorem getPilotStats_empty_key_aux :
    ∀ (rows : List ResultRow) stats, alookup stats "" = none →
      alookup (rows.foldl procStatsRow stats) "" = none := by
  intro rows
  induction rows with
  | nil => intro stats h; exact h
  | cons res rest ih =>
    intro stats h
    refine ih _ ?_
    unfold procStatsRow
    by_cases hk : rowKey res = ""
    · rw [if_pos hk]; exact h
    · rw [if_neg hk, alookup_aupdate_ne _ _ _ _ (fun hc => hk hc.symm)]
      exact h

/-- C7: the display key is derived by the same function everywhere — given
and family name joined by a single space and stripped — and rows whose
resulting key is empty are skipped outright, so no output of either
derivation ever holds an entry under the empty key. -/
theorem driverKey_uniform_and_empty_excluded :
    rowKey ⟨some ⟨some "Max", some "Verstappen"⟩, none, none, none, none⟩ = "Max Verstappen" ∧
    (∀ (g f p pt st : Option String) (pts : Option PointsField),
      rowKey ⟨some ⟨g, f⟩, p, pt, st, pts⟩ = pyStrip ((g.getD "") ++ " " ++ (f.getD ""))) ∧
    (∀ res rest cum entry, rowKey res = "" →
      processRows (res :: rest) cum entry = processRows rest cum entry) ∧
    (∀ stats res, rowKey res = "" → procStatsRow stats res = stats) ∧
    (∀ races, alookup (getPilotStats races) "" = none) ∧
    (∀ races prog, getPointsProgression races = Except.ok prog →
      ∀ e ∈ prog, alookup e.2 "" = none) := by
  refine ⟨by decide, fun g f p pt st pts => rfl, ?_, ?_, ?_, ?_⟩
  · intro res rest cum entry hk
    simp [processRows, hk]
  · intro stats res hk
    simp [procStatsRow, hk]
  · intro races
    unfold getPilotStats
    have hgen : ∀ rs stats, alookup stats "" = none →
        alookup (List.foldl (fun st race => (raceRows race).foldl procStatsRow st) stats rs)
          "" = none := by
      intro rs
      induction rs with
      | nil => intro stats h; exact h
      | cons race t ih =>
        intro stats h
        exact ih _ (getPilotStats_empty_key_aux (raceRows race) stats h)
    exact hgen races [] rfl
  · intro races prog heq
    exact progLoop_empty_key_lookup races [] [] prog heq
      (fun e he => absurd he (List.not_mem_nil e))

/-- A row whose given and family names are both empty. -/
def blankRow : ResultRow := ⟨some ⟨some "", some ""⟩, none, none, none, none⟩

/-- Witness for `driverKey_uniform_and_empty_excluded`: a row whose derived
key is empty leaves the pilot-stats dict untouched. -/
theorem driverKey_uniform_and_empty_excluded_witness :
    procStatsRow [] blankRow = [] :=
  driverKey_uniform_and_empty_excluded.2.2.2.1 [] blankRow (by decide)

/-! ## Points parsing semantics in `get_points_progression` -/

theorem processRows_error_of_bad :
    ∀ (rows : List ResultRow),
      (∃ r ∈ rows, rowKey r ≠ "" ∧ ∃ s, r.points = some (.nonNumeric s)) →
      ∀ cum entry, ∃ e, processRows rows cum entry = .error e := by
  intro rows
  induction rows with
  | nil =>
    rintro ⟨r, hr, _⟩
    exact absurd hr (List.not_mem_nil r)
  | cons res rest ih =>
    rintro ⟨r, hr, hkey, s, hs⟩ cum entry
    rw [List.mem_cons] at hr
    rcases hr with rfl | hr
    · refine ⟨"could not convert string to float: " ++ s, ?_⟩
      simp [processRows, hkey, hs, parsePoints]
    · by_cases hk : rowKey res = ""
      · obtain ⟨e, he⟩ := ih ⟨r, hr, hkey, s, hs⟩ cum entry
        exact ⟨e, by simp [processRows, hk, he]⟩
      · cases hp : parsePoints res.points with
        | error e => exact ⟨e, by simp [processRows, hk, hp]⟩
        | ok q =>
          obtain ⟨e, he⟩ := ih ⟨r, hr, hkey, s, hs⟩
            (aupdate cum (rowKey res) ((alookup cum (rowKey res)).getD 0 + q))
            (aupdate entry (rowKey res) ((alookup cum (rowKey res)).getD 0 + q))
          exact ⟨e, by simp [processRows, hk, hp, he]⟩

theorem progLoop_error_of_bad :
    ∀ (races : List Race) cum prog,
      (∃ race ∈ races, ∃ r ∈ raceRows race,
        rowKey r ≠ "" ∧ ∃ s, r.points = some (.nonNumeric s)) →
      ∃ e, progLoop races cum prog = .error e := by
  intro races
  induction races with
  | nil =>
    rintro cum prog ⟨race, hrace, _⟩
    exact absurd hrace (List.not_mem_nil race)
  | cons race0 rest ih =>
    rintro cum prog ⟨race, hrace, hbad⟩
    rw [List.mem_cons] at hrace
    rcases hrace with rfl | hrace
    · obtain ⟨e, he⟩ := processRows_error_of_bad (raceRows race) hbad cum []
      exact ⟨e, by simp [progLoop, he]⟩
    · cases hp : processRows (raceRows race0) cum [] with
      | error e => exact ⟨e, by simp [progLoop, hp]⟩
      | ok pr =>
        obtain ⟨cum2, entry⟩ := pr
        obtain ⟨e, he⟩ := ih cum2 (aupdate prog (raceLabel race0) entry)
          ⟨race, hrace, hbad⟩
        exact ⟨e, by simp [progLoop, hp, he]⟩

/-- C5 (amended): a row with a non-empty display key contributes its numeric
points value to the driver's running total, with 0 exactly when the points
field is missing; a present non-numeric points value does not contribute 0 —
it makes the whole operation fail with an error. -/
theorem pointsProgression_points_semantics :
    (∀ res rest cum entry, rowKey res ≠ "" → res.points = none →
      processRows (res :: rest) cum entry =
        processRows rest
          (aupdate cum (rowKey res) ((alookup cum (rowKey res)).getD 0 + 0))
          (aupdate entry (rowKey res) ((alookup cum (rowKey res)).getD 0 + 0))) ∧
    (∀ res rest cum entry q, rowKey res ≠ "" → res.points = some (.numeric q) →
      processRows (res :: rest) cum entry =
        processRows rest
          (aupdate cum (rowKey res) ((alookup cum (rowKey res)).getD 0 + q))
          (aupdate entry (rowKey res) ((alookup cum (rowKey res)).getD 0 + q))) ∧
    (∀ races, (∃ race ∈ races, ∃ r ∈ raceRows race,
        rowKey r ≠ "" ∧ ∃ s, r.points = some (.nonNumeric s)) →
      ∃ e, getPointsProgression races = Except.error e) := by
  refine ⟨?_, ?_, ?_⟩
  · intro res rest cum entry hk hpts
    simp [processRows, hk, hpts, parsePoints]
  · intro res rest cum entry q hk hpts
    simp [processRows, hk, hpts, parsePoints]
  · intro races hbad
    exact progLoop_error_of_bad races [] [] hbad

/-- A row with a present but non-numeric points value, and its season. -/
def nonNumericRow : ResultRow :=
  ⟨some ⟨some "A", some "B"⟩, none, none, none, some (.nonNumeric "abc")⟩

/-- One-race season containing only `nonNumericRow`. -/
def nonNumericRace : Race := ⟨some "1", some "R1", some [nonNumericRow]⟩

/-- C5 counterexample: a present non-numeric points value makes
`get_points_progression` fail (Python's `float` raises `ValueError`) instead
of contributing 0. -/
theorem pointsProgression_nonNumeric_counterexample :
    getPointsProgression [nonNumericRace] =
      .error "could not convert string to float: abc" := by
  rfl

/-- Witness for `pointsProgression_points_semantics` at the concrete
non-numeric season. -/
theorem pointsProgression_points_semantics_witness :
    ∃ e, getPointsProgression [nonNumericRace] = Except.error e :=
  pointsProgression_points_semantics.2.2 [nonNumericRace]
    ⟨nonNumericRace, List.mem_cons_self _ _, nonNumericRow, by decide, by decide,
      "abc", rfl⟩

/-! ## Per-race driver domain of the cumulative points table -/

/-- C8: in a successful points progression, race `i`'s entry holds a value
for a driver key exactly when that key is non-empty and labels some result
row of race `i` — no zero-filling and no carry-forward entries. -/
theorem pointsProgression_domain (races : List Race)
    (hok : ∀ race ∈ races, ∀ r ∈ raceRows race,
        rowKey r = "" ∨ ∃ q, parsePoints r.points = Except.ok q)
    (hnd : (races.map raceLabel).Nodup) :
    ∃ prog, getPointsProgression races = .ok prog ∧
      prog.length = races.length ∧
      ∀ (i : Nat) (race : Race), races[i]? = some race →
        ∃ entry : List (String × ℚ), prog[i]? = some (raceLabel race, entry) ∧
          ∀ d : String, (alookup entry d).isSome = true ↔
            (d ≠ "" ∧ appearsIn d race = true) := by
  obtain ⟨L, hLeq, hLlen, hLspec⟩ :=
    progLoop_ok races hok hnd [] [] (fun race _ => rfl)
  refine ⟨L, ?_, hLlen, ?_⟩
  · show progLoop races [] [] = .ok L
    rw [hLeq, List.nil_append]
  · intro i race hi
    obtain ⟨entry, hLi, hspec, h0⟩ := hLspec i race hi
    refine ⟨entry, hLi, ?_⟩
    intro d
    constructor
    · intro hs
      by_cases hd : d = ""
      · subst hd
        rw [h0] at hs
        simp at hs
      · refine ⟨hd, ?_⟩
        by_contra ha
        rw [hspec d hd, if_neg ha] at hs
        simp at hs
    · rintro ⟨hd, ha⟩
      rw [hspec d hd, if_pos ha]
      rfl

/-- First synthetic race: driver "A B" scores 25 points. -/
def race1 : Race :=
  ⟨some "1", some "R1",
    some [⟨some ⟨some "A", some "B"⟩, none, none, none, some (.numeric 25)⟩]⟩

/-- Second synthetic race: driver "A B" scores 18 points. -/
def race2 : Race :=
  ⟨some "2", some "R2",
    some [⟨some ⟨some "A", some "B"⟩, none, none, none, some (.numeric 18)⟩]⟩

/-- Witness for `pointsProgression_domain` on the two-race season. -/
theorem pointsProgression_domain_witness :
    ∃ prog, getPointsProgression [race1, race2] = .ok prog ∧
      prog.length = [race1, race2].length ∧
      ∀ (i : Nat) (race : Race), [race1, race2][i]? = some race →
        ∃ entry : List (String × ℚ), prog[i]? = some (raceLabel race, entry) ∧
          ∀ d : String, (alookup entry d).isSome = true ↔
            (d ≠ "" ∧ appearsIn d race = true) :=
  pointsProgression_domain [race1, race2]
    (by
      intro race hr r hrr
      rw [List.mem_cons, List.mem_singleton] at hr
      rcases hr with rfl | rfl
      · simp only [raceRows, race1, Option.getD_some, List.mem_singleton] at hrr
        subst hrr
        exact Or.inr ⟨25, rfl⟩
      · simp only [raceRows, race2, Option.getD_some, List.mem_singleton] at hrr
        subst hrr
        exact Or.inr ⟨18, rfl⟩)
    (by decide)

/-- Witness for `pointsProgression_cumulative` on the two-race season. -/
theorem pointsProgression_cumulative_witness :
    ∃ prog, getPointsProgression [race1, race2] = .ok prog ∧
      prog.length = [race1, race2].length ∧
      (∀ (i : Nat) (race : Race), [race1, race2][i]? = some race →
        ∃ entry : List (String × ℚ), prog[i]? = some (raceLabel race, entry) ∧
          ∀ (d : String) (t : ℚ), alookup entry d = some t →
            t = sumUpTo d [race1, race2] (i + 1)) ∧
      (∀ (i j : Nat) (ei ej : String × List (String × ℚ)) (d : String) (ti tj : ℚ),
        i ≤ j → prog[i]? = some ei → prog[j]? = some ej →
        alookup ei.2 d = some ti → alookup ej.2 d = some tj → ti ≤ tj) :=
  pointsProgression_cumulative [race1, race2]
    (by
      intro race hr r hrr
      rw [List.mem_cons, List.mem_singleton] at hr
      rcases hr with rfl | rfl
      · simp only [raceRows, race1, Option.getD_some, List.mem_singleton] at hrr
        subst hrr
        exact ⟨25, rfl, by norm_num⟩
      · simp only [raceRows, race2, Option.getD_some, List.mem_singleton] at hrr
        subst hrr
        exact ⟨18, rfl, by norm_num⟩)
    (by decide)

end F1
